import Mathlib

/-!
Verification of the maintainer.me incremental event-polling engine and
rule-based filter evaluator, shallowly embedded from the Go sources.

Sources embedded here:
* `src/events/events.go` — namespace `Maintainer.Events` (value-type `Event`,
  `ListNewEvents`, `ParseEvent`, `haveObserved`).
* `src/unnamed/part_000` (poller with circuit breaker) and
  `src/unnamed/part_003` (`Event` with `Discarded`, `Event.Filter`) —
  namespace `Maintainer.Core`.
* `src/poller/poller.go` (older poller variant with the `newEvents[:5]`
  slice) — namespace `Maintainer.Poller`.

Go `time.Time` is modelled as integer ticks (`Time := Int`) whose zero value
is `0`; `time.Time.Before` is `<`, `Equal` is `=`, `After` is `>`, and
`Add` of a duration is integer addition.  Durations (the parsed
`X-Poll-Interval` header, in seconds) are modelled as `Int`.
-/

namespace Maintainer

/-- Go `time.Time` as integer ticks; the zero value is `0`. -/
abbrev Time := Int

/-- `haveObserved` from src/events/events.go:77-79 (the same function appears
verbatim in src/unnamed/part_003 and src/poller/poller.go):
`!observed.IsZero() && (query.Before(observed) || query.Equal(observed))`. -/
def haveObserved (observed query : Time) : Bool :=
  decide (observed ≠ 0 ∧ (query < observed ∨ query = observed))

/-- The fixed first-poll watermark substitute
`time.Date(2017, 06, 30, 0, 0, 0, 0, time.FixedZone("Australia/Adelaide", 34200))`
from src/unnamed/part_000:90 and src/poller/poller.go:77, as Unix seconds
(2017-06-30T00:00:00+09:30 = 2017-06-29T14:30:00Z). -/
def adelaideEpoch : Time := 1498746600

/-- `http.Header.Get` on the `X-Poll-Interval` header: returns the empty
string when the header is absent. -/
def headerGet : Option String → String
  | none => ""
  | some s => s

/-- Accumulate a decimal numeral; fails on a non-digit character.  The empty
accumulator case is handled by the caller (`parseIntGo`). -/
def digitsToNat (acc : Nat) : List Char → Option Nat
  | [] => some acc
  | c :: cs => if c.isDigit then digitsToNat (acc * 10 + (c.toNat - 48)) cs else none

/-- Go `strconv.ParseInt(s, 10, 32)`: an optional sign followed by a
non-empty run of decimal digits, rejected when the value overflows int32.
Returns `none` whenever Go returns a non-nil error (including the empty
string, which is what `Header.Get` yields for an absent header). -/
def parseIntGo (s : String) : Option Int :=
  match s.data with
  | [] => none
  | '+' :: rest => parseDigits false rest
  | '-' :: rest => parseDigits true rest
  | cs => parseDigits false cs
where
  parseDigits (neg : Bool) (ds : List Char) : Option Int :=
    match ds with
    | [] => none
    | _ =>
      match digitsToNat 0 ds with
      | none => none
      | some n =>
        let v : Int := if neg then -(n : Int) else (n : Int)
        if v < -2147483648 ∨ 2147483647 < v then none else some v

/-- The payload of a `*github.Event` after `ParsePayload`.  Only
`CommitCommentEvent` is given a field mapping by `ParseEvent` in
src/events/events.go (lines 107-112); every other recognized type has an
empty `case` body there, so they are collapsed into `otherKnown` carrying
the type tag. -/
inductive Payload
  | commitComment (commitID bodyText repoName : String)
  | otherKnown (kind : String)
deriving DecidableEq

/-- A raw `*github.Event` as consumed by the fetch loop: `GetCreatedAt`,
`GetType`, `GetPublic`, `Actor.GetLogin`, and the result of `ParsePayload`
(`none` models a payload that fails to decode). -/
structure GHEvent where
  createdAt : Time
  type : String
  public : Bool
  actorLogin : String
  payload : Option Payload
deriving DecidableEq

/-- One page response from
`client.Activity.ListEventsReceivedByUser`: the page's events, the
`X-Poll-Interval` header (`none` = absent), and the `NextPage` cursor
(`0` = no next page). -/
structure Response where
  events : List GHEvent
  xPollInterval : Option String
  nextPage : Nat
deriving DecidableEq

/-- One page request's outcome: `Except.error ()` models a transport /
authorization failure of the remote call.  A fetch run is driven by the
finite sequence of successive page outcomes the remote produces. -/
abbrev PageResult := Except Unit Response

namespace Events

/-- The canonical event of src/events/events.go:15-27 (value type, no
`Discarded` field). -/
structure Event where
  rawEvent : GHEvent
  createdAt : Time
  type : String
  public : Bool
  actor : String
  action : String
  subject : String
  title : String
  body : String
deriving DecidableEq

/-- `ParseEvent` from src/events/events.go:94-147: fails when
`ghe.ParsePayload()` fails; otherwise populates the canonical fields, with
only the `CommitCommentEvent` case filling the semantic fields. -/
def ParseEvent (ghe : GHEvent) : Except Unit Event :=
  match ghe.payload with
  | none => .error ()
  | some p =>
    let e : Event :=
      { rawEvent := ghe, createdAt := ghe.createdAt, type := ghe.type,
        public := ghe.public, actor := "", action := "", subject := "",
        title := "", body := "" }
    match p with
    | .commitComment commitID bodyText repoName =>
      .ok { e with
              actor := ghe.actorLogin
              action := "commented"
              subject := commitID
              body := bodyText
              title := "[" ++ repoName ++ "] " ++ ghe.actorLogin ++
                       " commented on " ++ commitID }
    | .otherKnown _ => .ok e

/-- The three distinct failure sites of `ListNewEvents`
(src/events/events.go): the transport error at line 37 (`FetchError`), the
`X-Poll-Interval` parse error at line 43 (`ProtocolError`), and the
`ParseEvent` error at line 64 (`PayloadParseError`). -/
inductive ListError
  | fetchErr
  | protocolErr
  | parseErr
deriving DecidableEq

/-- The inner `for _, event := range pagedEvents` loop of `ListNewEvents`
(src/events/events.go:47-67): stop (`true`) at the first already-observed
event, otherwise parse and append; a `ParseEvent` failure aborts the whole
fetch. -/
def scanPage (lastCreatedAt : Time) : List GHEvent → Except Unit (List Event × Bool)
  | [] => .ok ([], false)
  | ghe :: rest =>
    if haveObserved lastCreatedAt ghe.createdAt then .ok ([], true)
    else
      match ParseEvent ghe with
      | .error e => .error e
      | .ok parsed =>
        match scanPage lastCreatedAt rest with
        | .error e => .error e
        | .ok (evs, stopped) => .ok (parsed :: evs, stopped)

/-- `ListNewEvents` from src/events/events.go:29-75, driven by the finite
sequence of page outcomes the remote returns for pages 1, NextPage, ….
Requesting a page the remote does not answer (`[]`) is a transport
failure.  Per page: parse the `X-Poll-Interval` header first, then scan
events, stopping the whole walk at the first already-observed event
(labelled `break ListEvents`) or when `NextPage == 0`; the last processed
page's poll interval is returned.  Totality of this definition is the
pagination-termination property: the walk consumes at most the given
finite page sequence. -/
def ListNewEvents (pages : List PageResult) (lastCreatedAt : Time) :
    Except ListError (List Event × Int) :=
  match pages with
  | [] => .error .fetchErr
  | .error _ :: _ => .error .fetchErr
  | .ok page :: rest =>
    match parseIntGo (headerGet page.xPollInterval) with
    | none => .error .protocolErr
    | some pollInt =>
      match scanPage lastCreatedAt page.events with
      | .error _ => .error .parseErr
      | .ok (evs, stopped) =>
        if stopped then .ok (evs, pollInt)
        else if page.nextPage = 0 then .ok (evs, pollInt)
        else
          match ListNewEvents rest lastCreatedAt with
          | .error e => .error e
          | .ok (evs₂, pollInt₂) => .ok (evs ++ evs₂, pollInt₂)

/-- Characterizes the page sequences on which `ListNewEvents` halts with
the poll-interval parse failure: the page walk reaches a page whose
`X-Poll-Interval` string (the empty string when the header is absent)
fails to parse, before any transport error, payload-parse error,
stop-boundary event or empty next-page cursor. -/
def badHeaderHalts (lastCreatedAt : Time) : List PageResult → Bool
  | [] => false
  | .error _ :: _ => false
  | .ok page :: rest =>
    match parseIntGo (headerGet page.xPollInterval) with
    | none => true
    | some _ =>
      match scanPage lastCreatedAt page.events with
      | .error _ => false
      | .ok (_, stopped) =>
        if stopped then false
        else if page.nextPage = 0 then false
        else badHeaderHalts lastCreatedAt rest

end Events

namespace Core

/-!
The `src/unnamed/part_000` poller and the `src/unnamed/part_003` canonical
event with its rule engine.
-/

/-- The `db.Filter` rule as used by src/unnamed/part_003:295-303
(`filter.Matches(e.RawEvent)`, `filter.OnMatchDiscard`) and configured by
the web console (src/web/consoleHandlers.go:369).  `Matches` comes from the
external ghfilter library (outside this repository), so it is abstracted to
a boolean predicate on the raw event. -/
structure Filter where
  matchesRaw : GHEvent → Bool
  onMatchDiscard : Bool

/-- The canonical event of src/unnamed/part_003:148-163: the events.go
event extended with the `Discarded` verdict field. -/
structure Event where
  rawEvent : GHEvent
  createdAt : Time
  type : String
  public : Bool
  discarded : Bool
  actor : String
  action : String
  subject : String
  title : String
  body : String
deriving DecidableEq

/-- `(*Event).Filter` from src/unnamed/part_003:295-303: the first filter
whose `Matches` holds sets `Discarded` to that filter's `OnMatchDiscard`
and returns; when no filter matches, `Discarded` is set to `true`. -/
def Event.Filter (e : Event) : List Core.Filter → Event
  | [] => { e with discarded := true }
  | f :: fs =>
    if f.matchesRaw e.rawEvent then { e with discarded := f.onMatchDiscard }
    else e.Filter fs

/-- Modelled from the spec: the two-argument `(*Event).Filter` taking the
account-level `defaultDiscard`, whose body is absent from src — only its
call sites appear (src/unnamed/part_000:136 and src/web/console.go:216 call
`events.Filter(filters, user.FilterDefaultDiscard)`); src/unnamed/part_003
holds the older one-argument variant above.  Per spec §4.3: the first
filter whose conditions all match wins and the verdict becomes its
`onMatchDiscard`; if no filter matches, the verdict is `defaultDiscard`. -/
def Event.FilterDefault (e : Event) (defaultDiscard : Bool) :
    List Core.Filter → Event
  | [] => { e with discarded := defaultDiscard }
  | f :: fs =>
    if f.matchesRaw e.rawEvent then { e with discarded := f.onMatchDiscard }
    else e.FilterDefault defaultDiscard fs

/-- `Events.Filter` lifted over the event list (src/unnamed/part_003:142-146
applies the per-event filter to each event in place), in the two-argument
form called by src/unnamed/part_000:136. -/
def FilterEventsDefault (events : List Event) (filters : List Core.Filter)
    (defaultDiscard : Bool) : List Event :=
  events.map (fun e => e.FilterDefault defaultDiscard filters)

/-- The `db.User` fields read by the part_000 poller: `ID`, `GitHubLogin`,
`EventLastCreatedAt` (the watermark; zero value = never polled) and the
account-level `FilterDefaultDiscard` flag (set by the web console,
src/web/console.go:281). -/
structure User where
  id : Int
  githubLogin : String
  eventLastCreatedAt : Time
  filterDefaultDiscard : Bool

/-- The effective fetch boundary computed by `PollUser`
(src/unnamed/part_000:86-91): the fixed epoch substitute when the stored
watermark is the zero value, the stored watermark otherwise. -/
def watermarkOf (u : User) : Time :=
  if u.eventLastCreatedAt = 0 then adelaideEpoch else u.eventLastCreatedAt

/-- The externally observable side effects of one `PollUser` run, in
program order: the `ListNewEvents` remote call with its watermark argument,
the `db.SetUsersPollResult` persistence call with its arguments, and each
`notifier.Notify` dispatch. -/
inductive Action
  | listEvents (login : String) (watermark : Time)
  | setPollResult (userID : Int) (lastCreatedAt nextPoll : Time)
  | notify (ev : Event)
deriving DecidableEq

/-- Collaborator oracles for one `PollUser` run: the filters the DB returns,
the fetch outcome per watermark, whether each persistence write succeeds,
whether each notification succeeds, and the current time. -/
structure Env where
  filters : Except Unit (List Core.Filter)
  listNewEvents : Time → Except Unit (List Event × Int)
  setUsersPollResult : Int → Time → Time → Bool
  notify : Event → Bool
  now : Time

/-- The dispatch loop of src/unnamed/part_000:139-146: skip discarded
events, notify the rest in order, aborting on the first notification
error (the failed attempt was still dispatched). -/
def notifyLoop (env : Env) : List Event → Except Unit Unit × List Action
  | [] => (.ok (), [])
  | e :: es =>
    if e.discarded then notifyLoop env es
    else if env.notify e then
      let (r, tr) := notifyLoop env es
      (r, .notify e :: tr)
    else (.error (), [.notify e])

/-- `(*Poller).PollUser` from src/unnamed/part_000:84-149: substitute the
fixed epoch for a zero watermark, load the filters, fetch new events, on a
non-empty result persist `events[0].CreatedAt` and `now + pollInterval`
(returning early if the write fails), then evaluate the rule engine and
dispatch the surviving events.  Returns the Go error result paired with
the trace of observable actions. -/
def PollUser (env : Env) (user : User) : Except Unit Unit × List Action :=
  let watermark := watermarkOf user
  match env.filters with
  | .error _ => (.error (), [])
  | .ok filters =>
    match env.listNewEvents watermark with
    | .error _ => (.error (), [.listEvents user.githubLogin watermark])
    | .ok (events, pollInterval) =>
      let pre : List Action := [.listEvents user.githubLogin watermark]
      let persistActions : List Action :=
        match events with
        | [] => []
        | e₀ :: _ => [.setPollResult user.id e₀.createdAt (env.now + pollInterval)]
      let persistOk : Bool :=
        match events with
        | [] => true
        | e₀ :: _ => env.setUsersPollResult user.id e₀.createdAt (env.now + pollInterval)
      if persistOk then
        let filtered := FilterEventsDefault events filters user.filterDefaultDiscard
        let (r, tr) := notifyLoop env filtered
        (r, pre ++ persistActions ++ tr)
      else (.error (), pre ++ persistActions)

/-- The per-user loop of `(*Poller).PollUsers`
(src/unnamed/part_000:69-80), abstracted over the sequence of per-user
`PollUser` outcomes (`true` = that user's poll returned an error): count
errors (the counter is never reset), and return an error — aborting the
remaining users — as soon as the count exceeds 5.  The second component is
the number of users actually polled. -/
def PollUsersLoop (errorCount : Nat) : List Bool → Except Unit Unit × Nat
  | [] => (.ok (), 0)
  | r :: rs =>
    let ec := if r then errorCount + 1 else errorCount
    if 5 < ec then (.error (), 1)
    else
      let (res, n) := PollUsersLoop ec rs
      (res, n + 1)

/-- `(*Poller).PollUsers` from src/unnamed/part_000:63-82: load the users
(an error is returned as-is) and run the counting loop. -/
def PollUsers (users : Except Unit (List Bool)) : Except Unit Unit × Nat :=
  match users with
  | .error _ => (.error (), 0)
  | .ok rs => PollUsersLoop 0 rs

/-- Follows the spec's words ("counts consecutive per-account errors"):
the greatest number of consecutive errors in the outcome sequence, for
comparison with the cumulative counter the code actually keeps. -/
def maxConsecutiveTrue (cur best : Nat) : List Bool → Nat
  | [] => max cur best
  | r :: rs =>
    if r then maxConsecutiveTrue (cur + 1) (max (cur + 1) best) rs
    else maxConsecutiveTrue 0 (max cur best) rs

end Core

namespace Poller

/-!
The older poller variant of src/poller/poller.go, which works on raw
`*github.Event` values (its `listNewEvents` does not parse payloads), has
a next-eligible-poll skip check, and slices `newEvents[:5]` before
matching filters.
-/

/-- The `db.User` fields read by this variant: `ID`, `GitHubUser`,
`EventLastCreatedAt` and `EventNextUpdate`. -/
structure User where
  id : Int
  githubUser : String
  eventLastCreatedAt : Time
  eventNextUpdate : Time

/-- Effective fetch boundary of src/poller/poller.go:73-78: the fixed epoch
substitute when the stored watermark is the zero value. -/
def watermarkOf (u : User) : Time :=
  if u.eventLastCreatedAt = 0 then adelaideEpoch else u.eventLastCreatedAt

/-- Observable side effects of one run of this variant.  `notify` carries
the raw `*github.Event` this variant dispatches. -/
inductive Action
  | listEvents (login : String) (watermark : Time)
  | setPollResult (userID : Int) (lastCreatedAt nextPoll : Time)
  | notify (ev : GHEvent)
deriving DecidableEq

/-- Collaborator oracles: here the filters are the ghfilter predicates
(external library, abstracted), and the fetch yields raw events. -/
structure Env where
  filters : Except Unit (List (GHEvent → Bool))
  listNewEvents : Time → Except Unit (List GHEvent × Int)
  setUsersPollResult : Int → Time → Time → Bool
  notify : GHEvent → Bool
  now : Time

deriving instance DecidableEq for Except

/-- How a run of this `PollUser` ends: a Go panic, or a normal return with
the Go error result. -/
inductive Outcome
  | panicked
  | returned (result : Except Unit Unit)
deriving DecidableEq

/-- A run's outcome together with the trace of observable actions performed
before it ended. -/
structure RunResult where
  outcome : Outcome
  trace : List Action
deriving DecidableEq

/-- The Go slice expression `s[:n]`: panics (`none`) when `n` exceeds the
slice's bounds, else yields the first `n` elements.  Capacity is modelled
as length; for the `newEvents[:5]` use below this agrees with the gc
runtime, whose append growth leaves capacity below 5 whenever fewer than 5
elements were appended. -/
def sliceTo (xs : List α) (n : Nat) : Option (List α) :=
  if n ≤ xs.length then some (xs.take n) else none

/-- The dispatch loop of src/poller/poller.go:136-140: notify each matched
event in order, aborting on the first notification error. -/
def notifyLoop (env : Env) : List GHEvent → Except Unit Unit × List Action
  | [] => (.ok (), [])
  | e :: es =>
    if env.notify e then
      let (r, tr) := notifyLoop env es
      (r, .notify e :: tr)
    else (.error (), [.notify e])

/-- `(*Poller).PollUser` from src/poller/poller.go:70-143: substitute the
fixed epoch for a zero watermark; skip (returning nil) when
`EventNextUpdate` is after now; load the filters; fetch; on a non-empty
result persist `newEvents[0].GetCreatedAt()` and `now + pollInterval`;
then take `newEvents[:5]` — a Go panic when fewer than five events were
fetched — keep the events matched by some filter (first match breaks the
inner loop), and notify them in order. -/
def PollUser (env : Env) (user : User) : RunResult :=
  let watermark := watermarkOf user
  if env.now < user.eventNextUpdate then ⟨.returned (.ok ()), []⟩
  else
    match env.filters with
    | .error _ => ⟨.returned (.error ()), []⟩
    | .ok filters =>
      match env.listNewEvents watermark with
      | .error _ => ⟨.returned (.error ()), [.listEvents user.githubUser watermark]⟩
      | .ok (newEvents, pollInterval) =>
        let pre : List Action := [.listEvents user.githubUser watermark]
        let persistActions : List Action :=
          match newEvents with
          | [] => []
          | e₀ :: _ => [.setPollResult user.id e₀.createdAt (env.now + pollInterval)]
        let persistOk : Bool :=
          match newEvents with
          | [] => true
          | e₀ :: _ => env.setUsersPollResult user.id e₀.createdAt (env.now + pollInterval)
        if persistOk then
          match sliceTo newEvents 5 with
          | none => ⟨.panicked, pre ++ persistActions⟩
          | some sliced =>
            let notifyEvents := sliced.filter (fun e => filters.any (fun f => f e))
            let (r, tr) := notifyLoop env notifyEvents
            ⟨.returned r, pre ++ persistActions ++ tr⟩
        else ⟨.returned (.error ()), pre ++ persistActions⟩

end Poller

/-!
Concrete sample data used by the witness theorems below.
-/

/-- A sample raw GitHub event at tick 100. -/
def sampleGH : GHEvent := ⟨100, "IssuesEvent", true, "alice", some (.otherKnown "IssuesEvent")⟩

/-- A second sample raw GitHub event at tick 200. -/
def sampleGH₂ : GHEvent := ⟨200, "PushEvent", true, "bob", some (.otherKnown "PushEvent")⟩

/-- `sampleGH` as a part_003 canonical event (not yet filtered). -/
def sampleEvent : Core.Event := ⟨sampleGH, 100, "IssuesEvent", true, false, "", "", "", "", ""⟩

/-- `sampleGH₂` as an events.go canonical event, exactly `ParseEvent sampleGH₂`. -/
def sampleParsed : Events.Event := ⟨sampleGH₂, 200, "PushEvent", true, "", "", "", "", ""⟩

/-- A rule that matches every raw event and keeps it. -/
def sampleFilter : Core.Filter := ⟨fun _ => true, false⟩

/-- A rule that matches no raw event. -/
def sampleFilterNone : Core.Filter := ⟨fun _ => false, true⟩

/-- A sample page: one fresh event (tick 200), one already-observed event
(tick 100) behind a watermark of 100, poll interval header `"60"`, no next
page. -/
def samplePage : Response := ⟨[sampleGH₂, sampleGH], some "60", 0⟩

/-- A page whose `X-Poll-Interval` header is absent. -/
def samplePageNoHeader : Response := ⟨[sampleGH₂], none, 0⟩

/-- A first page pointing at a next page (cursor 2), no stop event. -/
def samplePageNext : Response := ⟨[sampleGH₂], some "60", 2⟩

/-- A page whose `X-Poll-Interval` header is present but not numeric. -/
def samplePageBadHeader : Response := ⟨[], some "abc", 0⟩

/-- A collaborator environment for the part_000 poller in which every call
succeeds and the fetch returns the single `sampleEvent`. -/
def sampleEnv : Core.Env :=
  ⟨.ok [sampleFilter], fun _ => .ok ([sampleEvent], 60), fun _ _ _ => true,
   fun _ => true, 1000⟩

/-- A part_000 environment whose persistence write fails. -/
def sampleEnvPersistFail : Core.Env :=
  ⟨.ok [sampleFilter], fun _ => .ok ([sampleEvent], 60), fun _ _ _ => false,
   fun _ => true, 1000⟩

/-- A part_000 environment whose fetch returns no events. -/
def sampleEnvEmpty : Core.Env :=
  ⟨.ok [sampleFilter], fun _ => .ok ([], 60), fun _ _ _ => true,
   fun _ => true, 1000⟩

/-- A sample part_000 user with a non-zero watermark. -/
def sampleUser : Core.User := ⟨1, "alice", 500, false⟩

/-- A sample part_000 user who has never been polled (zero watermark). -/
def sampleUserFresh : Core.User := ⟨2, "bob", 0, false⟩

/-- A poller.go environment in which every call succeeds and the fetch
returns two raw events (fewer than five). -/
def samplePollerEnv : Poller.Env :=
  ⟨.ok [fun _ => true], fun _ => .ok ([sampleGH₂, sampleGH], 60), fun _ _ _ => true,
   fun _ => true, 1000⟩

/-- A poller.go environment whose fetch returns no events. -/
def samplePollerEnvEmpty : Poller.Env :=
  ⟨.ok [fun _ => true], fun _ => .ok ([], 60), fun _ _ _ => true,
   fun _ => true, 1000⟩

/-- A sample poller.go user eligible for polling now. -/
def samplePollerUser : Poller.User := ⟨1, "alice", 500, 0⟩

/-!
Theorems.
-/

/-- C1: for every event and every ordered filter list, when no filter's
conditions match the event, the rule engine's verdict for that event
equals the account-level `defaultDiscard` flag (kept when `defaultDiscard`
is `false`, discarded when it is `true`).  Stated on the spec-modelled
two-argument `Event.FilterDefault` called at src/unnamed/part_000:136. -/
theorem c1_no_match_verdict_is_defaultDiscard (e : Core.Event)
    (filters : List Core.Filter) (d : Bool)
    (h : ∀ f ∈ filters, f.matchesRaw e.rawEvent = false) :
    (e.FilterDefault d filters).discarded = d := by
  induction filters with
  | nil => rfl
  | cons f fs ih =>
    have hf := h f (by simp)
    rw [Core.Event.FilterDefault, hf]
    simp only [Bool.false_eq_true, if_false]
    exact ih (fun g hg => h g (by simp [hg]))

/-- Witness for C1: with one never-matching filter and `defaultDiscard =
false` the sample event is kept. -/
theorem c1_no_match_verdict_is_defaultDiscard_witness :
    (∀ f ∈ [sampleFilterNone], f.matchesRaw sampleEvent.rawEvent = false)
    ∧ (sampleEvent.FilterDefault false [sampleFilterNone]).discarded = false := by
  refine ⟨?_, ?_⟩
  · intro f hf
    simp only [List.mem_singleton] at hf
    subst hf
    rfl
  · exact c1_no_match_verdict_is_defaultDiscard sampleEvent [sampleFilterNone] false
      (by intro f hf; simp only [List.mem_singleton] at hf; subst hf; rfl)

/-- C5: for every event and every ordered filter list in which two or more
filters match the event, the verdict is the `onMatchDiscard` flag of the
earliest matching filter, and filters after the first match are not
evaluated (the result does not depend on them at all).  Stated on
`(*Event).Filter` from src/unnamed/part_003:295-303. -/
theorem c5_first_match_wins (e : Core.Event) (f : Core.Filter)
    (l₁ l₂ l₂' : List Core.Filter)
    (h₁ : ∀ g ∈ l₁, g.matchesRaw e.rawEvent = false)
    (h₂ : f.matchesRaw e.rawEvent = true)
    (h₃ : ∃ g ∈ l₂, g.matchesRaw e.rawEvent = true) :
    (e.Filter (l₁ ++ f :: l₂)).discarded = f.onMatchDiscard
    ∧ e.Filter (l₁ ++ f :: l₂) = e.Filter (l₁ ++ f :: l₂') := by
  induction l₁ with
  | nil => simp [Core.Event.Filter, h₂]
  | cons g gs ih =>
    have hg := h₁ g (by simp)
    simp only [List.cons_append, Core.Event.Filter, hg, Bool.false_eq_true, if_false]
    exact ih (fun g' hg' => h₁ g' (by simp [hg']))

/-- Witness for C5: the earliest of two matching filters decides (the
sample event stays kept although the later matching filter discards). -/
theorem c5_first_match_wins_witness :
    (∀ g ∈ ([] : List Core.Filter), g.matchesRaw sampleEvent.rawEvent = false)
    ∧ sampleFilter.matchesRaw sampleEvent.rawEvent = true
    ∧ (∃ g ∈ [Core.Filter.mk (fun _ => true) true],
        g.matchesRaw sampleEvent.rawEvent = true)
    ∧ (sampleEvent.Filter ([] ++ sampleFilter :: [Core.Filter.mk (fun _ => true) true])).discarded
        = sampleFilter.onMatchDiscard
    ∧ sampleEvent.Filter ([] ++ sampleFilter :: [Core.Filter.mk (fun _ => true) true])
        = sampleEvent.Filter ([] ++ sampleFilter :: []) := by
  have hex : ∃ g ∈ [Core.Filter.mk (fun _ => true) true],
      g.matchesRaw sampleEvent.rawEvent = true := by
    exact ⟨Core.Filter.mk (fun _ => true) true, ⟨by simp, rfl⟩⟩
  have h0 : ∀ g ∈ ([] : List Core.Filter), g.matchesRaw sampleEvent.rawEvent = false := by
    intro g hg; cases hg
  have h := c5_first_match_wins sampleEvent sampleFilter []
    [Core.Filter.mk (fun _ => true) true] [] h0 rfl hex
  exact ⟨h0, ⟨rfl, ⟨hex, ⟨h.1, h.2⟩⟩⟩⟩

/-- The counting loop characterized for an arbitrary starting error count:
with at most `5 - ec` further errors every user is polled and the loop
returns nil; as soon as the cumulative count reaches 6 the loop stops
right after the error that reached it and returns an error. -/
lemma pollUsersLoop_spec (rs : List Bool) : ∀ ec : Nat, ec ≤ 5 →
    (ec + rs.count true ≤ 5 → Core.PollUsersLoop ec rs = (.ok (), rs.length))
    ∧ (6 ≤ ec + rs.count true → ∃ k, 1 ≤ k ∧ k ≤ rs.length ∧
        Core.PollUsersLoop ec rs = (.error (), k) ∧
        ec + (rs.take k).count true = 6 ∧ rs[k-1]? = some true) := by
  induction rs with
  | nil =>
    intro ec hec
    refine ⟨fun _ => rfl, fun h6 => ?_⟩
    simp only [List.count_nil] at h6
    omega
  | cons r rs ih =>
    intro ec hec
    by_cases hr : r = true
    · subst hr
      have hcnt : (true :: rs).count true = rs.count true + 1 := by simp
      by_cases hec5 : ec = 5
      · subst hec5
        refine ⟨fun hle => absurd hle (by omega), fun _ => ?_⟩
        refine ⟨1, le_refl 1, by simp, ?_, ?_, ?_⟩
        · simp [Core.PollUsersLoop]
        · simp
        · simp
      · have hec' : ec + 1 ≤ 5 := by omega
        have ihh := ih (ec + 1) hec'
        have hstep : Core.PollUsersLoop ec (true :: rs)
            = (let p := Core.PollUsersLoop (ec + 1) rs; (p.1, p.2 + 1)) := by
          simp only [Core.PollUsersLoop]
          have hnot : ¬ 5 < ec + 1 := by omega
          simp [hnot]
        refine ⟨fun hle => ?_, fun h6 => ?_⟩
        · have hle' : ec + 1 + rs.count true ≤ 5 := by omega
          have hok := ihh.1 hle'
          rw [hstep, hok]
          simp
        · have h6' : 6 ≤ ec + 1 + rs.count true := by omega
          obtain ⟨k, hk1, hklen, hres, hcount, hlast⟩ := ihh.2 h6'
          obtain ⟨k', rfl⟩ : ∃ k', k = k' + 1 := ⟨k - 1, by omega⟩
          have htake : ((true :: rs).take (k' + 1 + 1)).count true
              = (rs.take (k' + 1)).count true + 1 := by
            simp [List.take_succ_cons]
          refine ⟨k' + 1 + 1, by omega, by simp; omega, ?_, ?_, ?_⟩
          · rw [hstep, hres]
          · omega
          · simpa using hlast
    · have hr' : r = false := by simpa using hr
      subst hr'
      have hcnt : (false :: rs).count true = rs.count true := by simp
      have ihh := ih ec hec
      have hstep : Core.PollUsersLoop ec (false :: rs)
          = (let p := Core.PollUsersLoop ec rs; (p.1, p.2 + 1)) := by
        simp only [Core.PollUsersLoop]
        have hnot : ¬ 5 < ec := by omega
        simp [hnot]
      refine ⟨fun hle => ?_, fun h6 => ?_⟩
      · have hle' : ec + rs.count true ≤ 5 := by omega
        have hok := ihh.1 hle'
        rw [hstep, hok]
        simp
      · have h6' : 6 ≤ ec + rs.count true := by omega
        obtain ⟨k, hk1, hklen, hres, hcount, hlast⟩ := ihh.2 h6'
        obtain ⟨k', rfl⟩ : ∃ k', k = k' + 1 := ⟨k - 1, by omega⟩
        have htake : ((false :: rs).take (k' + 1 + 1)).count true
            = (rs.take (k' + 1)).count true := by
          simp [List.take_succ_cons]
        refine ⟨k' + 1 + 1, by omega, by simp; omega, ?_, ?_, ?_⟩
        · rw [hstep, hres]
        · omega
        · simpa using hlast

/-- C4 counterexample: eight accounts whose poll outcomes are
error, success, error, error, error, error, error, success.  The maximal
run of consecutive errors is 5 (never exceeding the threshold), yet the
cycle aborts with an error after the seventh account, leaving the eighth
unprocessed: the counter of src/unnamed/part_000:69-79 is cumulative, not
consecutive (it is never reset on a successful account). -/
theorem c4_counterexample :
    Core.PollUsers (.ok [true, false, true, true, true, true, true, false])
      = (.error (), 7)
    ∧ Core.maxConsecutiveTrue 0 0 [true, false, true, true, true, true, true, false] = 5
    ∧ ([true, false, true, true, true, true, true, false] : List Bool).length = 8 := by
  refine ⟨by decide, by decide, by decide⟩

/-- C4 as amended: in one multi-account cycle a single account's polling
error only skips that account (with at most 5 cumulative errors every
account is still processed and the cycle returns nil), each error counts
toward a cumulative — not consecutive — per-cycle counter that is never
reset on success, and once that cumulative count exceeds 5 the cycle is
aborted immediately after the account whose error reached 6 and an error
is surfaced to the caller. -/
theorem c4_cumulative_error_circuit_breaker (rs : List Bool) :
    (rs.count true ≤ 5 → Core.PollUsers (.ok rs) = (.ok (), rs.length))
    ∧ (6 ≤ rs.count true → ∃ k, 1 ≤ k ∧ k ≤ rs.length ∧
        Core.PollUsers (.ok rs) = (.error (), k) ∧
        (rs.take k).count true = 6 ∧ rs[k-1]? = some true) := by
  have h := pollUsersLoop_spec rs 0 (by omega)
  simpa [Core.PollUsers] using h

/-- Witness for the amended C4: six straight failing accounts abort the
cycle at the sixth account with an error. -/
theorem c4_cumulative_error_circuit_breaker_witness :
    6 ≤ ([true, true, true, true, true, true] : List Bool).count true
    ∧ ∃ k, 1 ≤ k ∧ k ≤ ([true, true, true, true, true, true] : List Bool).length ∧
        Core.PollUsers (.ok [true, true, true, true, true, true]) = (.error (), k) ∧
        (([true, true, true, true, true, true] : List Bool).take k).count true = 6 ∧
        ([true, true, true, true, true, true] : List Bool)[k-1]? = some true := by
  have h := (c4_cumulative_error_circuit_breaker
    [true, true, true, true, true, true]).2 (by decide)
  exact ⟨by decide, h⟩

/-- `ParseEvent` copies the raw event's `CreatedAt` into the canonical
event. -/
lemma parseEvent_createdAt {ghe : GHEvent} {e : Events.Event}
    (h : Events.ParseEvent ghe = .ok e) : e.createdAt = ghe.createdAt := by
  unfold Events.ParseEvent at h
  match hp : ghe.payload with
  | none => rw [hp] at h; cases h
  | some (.commitComment c b r) => rw [hp] at h; cases h; rfl
  | some (.otherKnown k) => rw [hp] at h; cases h; rfl

/-- Every event a page scan returns was not already observed. -/
lemma scanPage_mem_not_observed (w : Time) :
    ∀ (l : List GHEvent) (evs : List Events.Event) (s : Bool),
    Events.scanPage w l = .ok (evs, s) →
    ∀ e ∈ evs, haveObserved w e.createdAt = false := by
  intro l
  induction l with
  | nil =>
    intro evs s h e he
    simp only [Events.scanPage] at h
    cases h
    cases he
  | cons ghe rest ih =>
    intro evs s h e he
    simp only [Events.scanPage] at h
    by_cases hobs : haveObserved w ghe.createdAt = true
    · rw [if_pos hobs] at h
      cases h
      cases he
    · rw [if_neg hobs] at h
      match hp : Events.ParseEvent ghe with
      | .error err =>
        rw [hp] at h
        cases h
      | .ok parsed =>
        rw [hp] at h
        match hs : Events.scanPage w rest with
        | .error err =>
          rw [hs] at h
          cases h
        | .ok (evs', s') =>
          rw [hs] at h
          cases h
          rcases List.mem_cons.mp he with rfl | hmem
          · rw [parseEvent_createdAt hp]
            simp only [Bool.not_eq_true] at hobs
            exact hobs
          · exact ih _ _ hs e hmem

/-- Once a page contains an already-observed event, the scan's result does
not depend on anything after that event. -/
lemma scanPage_stop_indep {w : Time} {s : GHEvent}
    (hs : haveObserved w s.createdAt = true) :
    ∀ (pre post post' : List GHEvent),
    Events.scanPage w (pre ++ s :: post) = Events.scanPage w (pre ++ s :: post') := by
  intro pre
  induction pre with
  | nil =>
    intro post post'
    simp only [List.nil_append, Events.scanPage, if_pos hs]
  | cons g gs ih =>
    intro post post'
    simp only [List.cons_append, Events.scanPage, List.append_eq]
    rw [ih post post']

/-- Once a page contains an already-observed event, the scan either fails
on an earlier unparsable payload or stops (returns `true`). -/
lemma scanPage_stop_shape {w : Time} {s : GHEvent}
    (hs : haveObserved w s.createdAt = true) :
    ∀ (pre post : List GHEvent),
    Events.scanPage w (pre ++ s :: post) = .error () ∨
    ∃ evs, Events.scanPage w (pre ++ s :: post) = .ok (evs, true) := by
  intro pre
  induction pre with
  | nil =>
    intro post
    right
    exact ⟨[], by simp only [List.nil_append, Events.scanPage, if_pos hs]⟩
  | cons g gs ih =>
    intro post
    simp only [List.cons_append, Events.scanPage, List.append_eq]
    by_cases hobs : haveObserved w g.createdAt = true
    · right
      exact ⟨[], by rw [if_pos hobs]⟩
    · rw [if_neg hobs]
      match hp : Events.ParseEvent g with
      | .error err =>
        left
        simp only [hp]
      | .ok parsed =>
        simp only [hp]
        rcases ih post with herr | ⟨evs, hok⟩
        · left; rw [herr]
        · right; exact ⟨parsed :: evs, by rw [hok]⟩

/-- A scan that stops did find an already-observed event on its page. -/
lemma scanPage_stopped_mem (w : Time) :
    ∀ (l : List GHEvent) (evs : List Events.Event),
    Events.scanPage w l = .ok (evs, true) →
    ∃ g ∈ l, haveObserved w g.createdAt = true := by
  intro l
  induction l with
  | nil =>
    intro evs h
    simp only [Events.scanPage] at h
    cases h
  | cons ghe rest ih =>
    intro evs h
    simp only [Events.scanPage] at h
    by_cases hobs : haveObserved w ghe.createdAt = true
    · exact ⟨ghe, ⟨by simp, hobs⟩⟩
    · rw [if_neg hobs] at h
      match hp : Events.ParseEvent ghe with
      | .error err =>
        rw [hp] at h
        cases h
      | .ok parsed =>
        rw [hp] at h
        match hsc : Events.scanPage w rest with
        | .error err =>
          rw [hsc] at h
          cases h
        | .ok (evs', s') =>
          rw [hsc] at h
          cases h
          obtain ⟨g, hg, hgo⟩ := ih evs' hsc
          exact ⟨g, ⟨by simp [hg], hgo⟩⟩

/-- Every event a whole fetch returns was not already observed. -/
lemma listNewEvents_mem_not_observed :
    ∀ (pages : List PageResult) (w : Time) (evs : List Events.Event) (pollInt : Int),
    Events.ListNewEvents pages w = .ok (evs, pollInt) →
    ∀ e ∈ evs, haveObserved w e.createdAt = false := by
  intro pages
  induction pages with
  | nil =>
    intro w evs pollInt h
    cases h
  | cons pr rest ih =>
    intro w evs pollInt h e he
    match pr with
    | .error err =>
      simp only [Events.ListNewEvents] at h
      cases h
    | .ok page =>
      simp only [Events.ListNewEvents] at h
      match hpi : parseIntGo (headerGet page.xPollInterval) with
      | none =>
        simp only [hpi] at h
        cases h
      | some n =>
        simp only [hpi] at h
        match hsc : Events.scanPage w page.events with
        | .error err =>
          simp only [hsc] at h
          cases h
        | .ok (pevs, stopped) =>
          simp only [hsc] at h
          by_cases hst : stopped = true
          · rw [if_pos hst] at h
            cases h
            exact scanPage_mem_not_observed w page.events _ _ hsc e he
          · rw [if_neg hst] at h
            by_cases hnp : page.nextPage = 0
            · rw [if_pos hnp] at h
              cases h
              exact scanPage_mem_not_observed w page.events _ _ hsc e he
            · rw [if_neg hnp] at h
              match hrec : Events.ListNewEvents rest w with
              | .error err =>
                rw [hrec] at h
                cases h
              | .ok (evs₂, pi₂) =>
                rw [hrec] at h
                cases h
                rcases List.mem_append.mp he with hmem | hmem
                · exact scanPage_mem_not_observed w page.events _ _ hsc e hmem
                · exact ih w _ _ hrec e hmem

/-- C2: for every non-zero watermark `w`, the incremental fetch returns no
event whose `createdAt` is ≤ `w` (every returned event is strictly newer),
and scanning stops at the first already-observed event: once a page
contains one, the fetch result does not depend on anything after that
event — neither the rest of that page, nor its next-page cursor, nor any
later page (no further pages are requested). -/
theorem c2_fetch_excludes_observed (pages : List PageResult) (w : Time)
    (evs : List Events.Event) (pollInt : Int) (hw : w ≠ 0)
    (h : Events.ListNewEvents pages w = .ok (evs, pollInt)) :
    (∀ e ∈ evs, w < e.createdAt)
    ∧ (∀ (pre post post' : List GHEvent) (s : GHEvent) (hdr : Option String)
        (np np' : Nat) (rest rest' : List PageResult),
        haveObserved w s.createdAt = true →
        Events.ListNewEvents (.ok ⟨pre ++ s :: post, hdr, np⟩ :: rest) w
          = Events.ListNewEvents (.ok ⟨pre ++ s :: post', hdr, np'⟩ :: rest') w) := by
  constructor
  · intro e he
    have hobs := listNewEvents_mem_not_observed pages w evs pollInt h e he
    by_contra hnlt
    push_neg at hnlt
    have htrue : haveObserved w e.createdAt = true := by
      unfold haveObserved
      apply decide_eq_true
      refine ⟨hw, ?_⟩
      rcases lt_or_eq_of_le hnlt with h1 | h1
      · exact Or.inl h1
      · exact Or.inr h1
    rw [htrue] at hobs
    cases hobs
  · intro pre post post' s hdr np np' rest rest' hstop
    have hind := scanPage_stop_indep hstop pre post post'
    have hshape := scanPage_stop_shape hstop pre post
    simp only [Events.ListNewEvents]
    match hpi : parseIntGo (headerGet hdr) with
    | none => simp only [hpi]
    | some k =>
      simp only [hpi]
      rcases hshape with herr | ⟨evs₀, hok⟩
      · rw [herr, hind.symm.trans herr]
      · rw [hok, hind.symm.trans hok]
        rfl

/-- Witness for C2: a single page holding one fresh event (tick 200) and
one already-observed event (tick 100) behind watermark 100 returns exactly
the fresh event. -/
theorem c2_fetch_excludes_observed_witness :
    (100 : Time) ≠ 0
    ∧ Events.ListNewEvents [.ok samplePage] 100 = .ok ([sampleParsed], 60)
    ∧ ∀ e ∈ [sampleParsed], (100 : Time) < e.createdAt := by
  refine ⟨by decide, by decide, ?_⟩
  exact (c2_fetch_excludes_observed [.ok samplePage] 100 [sampleParsed] 60
    (by decide) (by decide)).1

/-- C7 counterexample: a page with no transport failure whose
`X-Poll-Interval` header is absent.  `Header.Get` yields the empty string,
`strconv.ParseInt` fails on it, and the fetch returns the ProtocolError —
contradicting the claim that an absent header is not an error. -/
theorem c7_counterexample :
    samplePageNoHeader.xPollInterval = none
    ∧ Events.ListNewEvents [.ok samplePageNoHeader] 5 = .error .protocolErr := by
  exact ⟨rfl, by decide⟩

/-- C7 as amended: the incremental fetch fails with ProtocolError exactly
when the page walk reaches a page whose recommended-poll-interval string —
the empty string when the header is absent — fails integer parsing; in
particular an absent header IS a ProtocolError (not "no error"), and a
transport/authorization failure yields FetchError instead. -/
theorem c7_protocol_error_characterization (pages : List PageResult) (w : Time) :
    (Events.ListNewEvents pages w = .error .protocolErr
      ↔ Events.badHeaderHalts w pages = true)
    ∧ ∀ rest : List PageResult,
        Events.ListNewEvents (.error () :: rest) w = .error .fetchErr := by
  constructor
  · induction pages with
    | nil => simp [Events.ListNewEvents, Events.badHeaderHalts]
    | cons pr rest ih =>
      match pr with
      | .error err => simp [Events.ListNewEvents, Events.badHeaderHalts]
      | .ok page =>
        simp only [Events.ListNewEvents, Events.badHeaderHalts]
        match hpi : parseIntGo (headerGet page.xPollInterval) with
        | none => simp [hpi]
        | some n =>
          simp only [hpi]
          match hsc : Events.scanPage w page.events with
          | .error err => simp [hsc]
          | .ok (pevs, stopped) =>
            simp only [hsc]
            by_cases hst : stopped = true
            · simp [hst]
            · have hsf : stopped = false := by simpa using hst
              subst hsf
              by_cases hnp : page.nextPage = 0
              · simp [hnp]
              · simp only [Bool.false_eq_true, if_false, if_neg hnp]
                rw [← ih]
                match hrec : Events.ListNewEvents rest w with
                | .error e => simp [hrec]
                | .ok (a, b) => simp [hrec]
  · intro rest
    rfl

/-- Witness for the amended C7: a page whose header is present but reads
`"abc"` makes the fetch fail with ProtocolError. -/
theorem c7_protocol_error_characterization_witness :
    Events.badHeaderHalts 5 [.ok samplePageBadHeader] = true
    ∧ Events.ListNewEvents [.ok samplePageBadHeader] 5 = .error .protocolErr := by
  refine ⟨by decide, ?_⟩
  exact (c7_protocol_error_characterization [.ok samplePageBadHeader] 5).1.mpr (by decide)

/-- C8: for every finite sequence of pages the fetch terminates — the
function is total by structural recursion on the page sequence, consuming
at most the given pages — and a successful fetch halts at some requested
page that either contains an already-observed (stop-boundary) event or has
an empty next-page cursor; pages beyond it are never consulted (the result
is already determined by the prefix ending there). -/
theorem c8_pagination_halts (pages : List PageResult) (w : Time)
    (evs : List Events.Event) (pollInt : Int)
    (h : Events.ListNewEvents pages w = .ok (evs, pollInt)) :
    ∃ i, i < pages.length ∧ ∃ page : Response, pages[i]? = some (.ok page) ∧
      ((∃ g ∈ page.events, haveObserved w g.createdAt = true) ∨ page.nextPage = 0) ∧
      Events.ListNewEvents (pages.take (i + 1)) w = .ok (evs, pollInt) := by
  induction pages generalizing evs pollInt with
  | nil => cases h
  | cons pr rest ih =>
    match pr with
    | .error err =>
      simp only [Events.ListNewEvents] at h
      cases h
    | .ok page =>
      simp only [Events.ListNewEvents] at h
      match hpi : parseIntGo (headerGet page.xPollInterval) with
      | none =>
        simp only [hpi] at h
        cases h
      | some n =>
        simp only [hpi] at h
        match hsc : Events.scanPage w page.events with
        | .error err =>
          simp only [hsc] at h
          cases h
        | .ok (pevs, stopped) =>
          simp only [hsc] at h
          by_cases hst : stopped = true
          · rw [if_pos hst] at h
            cases h
            refine ⟨0, by simp, page, by simp, ?_, ?_⟩
            · exact Or.inl (scanPage_stopped_mem w page.events _ (hst ▸ hsc))
            · simp only [List.take_succ_cons, List.take_zero, Events.ListNewEvents,
                hpi, hsc]
              rw [if_pos hst]
          · rw [if_neg hst] at h
            by_cases hnp : page.nextPage = 0
            · rw [if_pos hnp] at h
              cases h
              refine ⟨0, by simp, page, by simp, Or.inr hnp, ?_⟩
              simp only [List.take_succ_cons, List.take_zero, Events.ListNewEvents,
                hpi, hsc]
              rw [if_neg hst, if_pos hnp]
            · rw [if_neg hnp] at h
              match hrec : Events.ListNewEvents rest w with
              | .error err =>
                rw [hrec] at h
                cases h
              | .ok (evs₂, pi₂) =>
                rw [hrec] at h
                cases h
                obtain ⟨i, hi, page', hpg, hhalt, htake⟩ := ih _ _ hrec
                refine ⟨i + 1, ?_, page', ?_, hhalt, ?_⟩
                · simp only [List.length_cons]
                  omega
                · simpa using hpg
                · simp only [List.take_succ_cons, Events.ListNewEvents, hpi, hsc]
                  rw [if_neg hst, if_neg hnp, htake]

/-- Witness for C8: a two-page walk (first page's cursor points at the
second, the second page contains the stop-boundary event at the watermark)
halts on a concrete requested page. -/
theorem c8_pagination_halts_witness :
    Events.ListNewEvents [.ok samplePageNext, .ok samplePage] 150
      = .ok ([sampleParsed, sampleParsed], 60)
    ∧ ∃ i, i < ([.ok samplePageNext, .ok samplePage] : List PageResult).length ∧
        ∃ page : Response,
          ([.ok samplePageNext, .ok samplePage] : List PageResult)[i]? = some (.ok page) ∧
          ((∃ g ∈ page.events, haveObserved 150 g.createdAt = true) ∨ page.nextPage = 0) ∧
          Events.ListNewEvents (([.ok samplePageNext, .ok samplePage] : List PageResult).take (i + 1)) 150
            = .ok ([sampleParsed, sampleParsed], 60) := by
  refine ⟨by decide, ?_⟩
  exact c8_pagination_halts [.ok samplePageNext, .ok samplePage] 150
    [sampleParsed, sampleParsed] 60 (by decide)

/-- In the part_000 dispatch loop, every action in the trace is a
notification. -/
lemma core_notifyLoop_trace (env : Core.Env) :
    ∀ (l : List Core.Event) (a : Core.Action), a ∈ (Core.notifyLoop env l).2 →
    ∃ ev, a = Core.Action.notify ev := by
  intro l
  induction l with
  | nil =>
    intro a ha
    cases ha
  | cons e es ih =>
    intro a ha
    simp only [Core.notifyLoop] at ha
    by_cases hd : e.discarded = true
    · rw [if_pos hd] at ha
      exact ih a ha
    · rw [if_neg hd] at ha
      by_cases hn : env.notify e = true
      · rw [if_pos hn] at ha
        rcases List.mem_cons.mp ha with rfl | hmem
        · exact ⟨e, rfl⟩
        · exact ih a hmem
      · rw [if_neg hn] at ha
        rcases List.mem_singleton.mp ha with rfl
        exact ⟨e, rfl⟩

/-- In the poller.go dispatch loop, every action in the trace is a
notification of a member of the input list. -/
lemma poller_notifyLoop_trace (env : Poller.Env) :
    ∀ (l : List GHEvent) (a : Poller.Action), a ∈ (Poller.notifyLoop env l).2 →
    ∃ ev ∈ l, a = Poller.Action.notify ev := by
  intro l
  induction l with
  | nil =>
    intro a ha
    cases ha
  | cons e es ih =>
    intro a ha
    simp only [Poller.notifyLoop] at ha
    by_cases hn : env.notify e = true
    · rw [if_pos hn] at ha
      rcases List.mem_cons.mp ha with rfl | hmem
      · exact ⟨e, ⟨by simp, rfl⟩⟩
      · obtain ⟨ev, hev, rfl⟩ := ih a hmem
        exact ⟨ev, ⟨by simp [hev], rfl⟩⟩
    · rw [if_neg hn] at ha
      rcases List.mem_singleton.mp ha with rfl
      exact ⟨e, ⟨by simp, rfl⟩⟩

/-- Every action in a part_000 `PollUser` trace is the fetch call with the
effective watermark, a persistence call for this user, or a
notification. -/
lemma core_pollUser_trace_shape (env : Core.Env) (u : Core.User) :
    ∀ a ∈ (Core.PollUser env u).2,
      a = Core.Action.listEvents u.githubLogin (Core.watermarkOf u)
      ∨ (∃ t₁ t₂, a = Core.Action.setPollResult u.id t₁ t₂)
      ∨ (∃ ev, a = Core.Action.notify ev) := by
  intro a ha
  unfold Core.PollUser at ha
  match hfil : env.filters with
  | .error err =>
    simp only [hfil] at ha
    cases ha
  | .ok filters =>
    simp only [hfil] at ha
    match hfetch : env.listNewEvents (Core.watermarkOf u) with
    | .error err =>
      simp only [hfetch] at ha
      rcases List.mem_singleton.mp ha with rfl
      exact Or.inl rfl
    | .ok (events, pollInterval) =>
      simp only [hfetch] at ha
      match events with
      | [] =>
        simp only at ha
        rw [if_pos trivial] at ha
        rcases List.mem_append.mp ha with hmem | hmem
        · rcases List.mem_singleton.mp (by simpa using hmem) with rfl
          exact Or.inl rfl
        · obtain ⟨ev, rfl⟩ := core_notifyLoop_trace env _ a hmem
          exact Or.inr (Or.inr ⟨ev, rfl⟩)
      | e₀ :: tl =>
        simp only at ha
        by_cases hp : env.setUsersPollResult u.id e₀.createdAt (env.now + pollInterval) = true
        · rw [if_pos hp] at ha
          rcases List.mem_append.mp ha with hmem | hmem
          · rcases List.mem_append.mp hmem with hm | hm
            · rcases List.mem_singleton.mp hm with rfl
              exact Or.inl rfl
            · rcases List.mem_singleton.mp hm with rfl
              exact Or.inr (Or.inl ⟨e₀.createdAt, env.now + pollInterval, rfl⟩)
          · obtain ⟨ev, rfl⟩ := core_notifyLoop_trace env _ a hmem
            exact Or.inr (Or.inr ⟨ev, rfl⟩)
        · rw [if_neg hp] at ha
          rcases List.mem_append.mp ha with hm | hm
          · rcases List.mem_singleton.mp hm with rfl
            exact Or.inl rfl
          · rcases List.mem_singleton.mp hm with rfl
            exact Or.inr (Or.inl ⟨e₀.createdAt, env.now + pollInterval, rfl⟩)

/-- Every action in a poller.go `PollUser` trace is the fetch call with the
effective watermark, a persistence call for this user, or a
notification. -/
lemma poller_pollUser_trace_shape (env : Poller.Env) (u : Poller.User) :
    ∀ a ∈ (Poller.PollUser env u).trace,
      a = Poller.Action.listEvents u.githubUser (Poller.watermarkOf u)
      ∨ (∃ t₁ t₂, a = Poller.Action.setPollResult u.id t₁ t₂)
      ∨ (∃ ev, a = Poller.Action.notify ev) := by
  intro a ha
  unfold Poller.PollUser at ha
  by_cases hskip : env.now < u.eventNextUpdate
  · rw [if_pos hskip] at ha
    cases ha
  · rw [if_neg hskip] at ha
    match hfil : env.filters with
    | .error err =>
      simp only [hfil] at ha
      cases ha
    | .ok filters =>
      simp only [hfil] at ha
      match hfetch : env.listNewEvents (Poller.watermarkOf u) with
      | .error err =>
        simp only [hfetch] at ha
        rcases List.mem_singleton.mp ha with rfl
        exact Or.inl rfl
      | .ok (newEvents, pollInterval) =>
        simp only [hfetch] at ha
        match newEvents with
        | [] =>
          simp only at ha
          rw [if_pos trivial] at ha
          simp only [Poller.sliceTo, List.length_nil] at ha
          rw [if_neg (by omega)] at ha
          rcases List.mem_singleton.mp (by simpa using ha) with rfl
          exact Or.inl rfl
        | e₀ :: tl =>
          simp only at ha
          by_cases hp : env.setUsersPollResult u.id e₀.createdAt (env.now + pollInterval) = true
          · rw [if_pos hp] at ha
            match hsl : Poller.sliceTo (e₀ :: tl) 5 with
            | none =>
              simp only [hsl] at ha
              rcases List.mem_append.mp ha with hm | hm
              · rcases List.mem_singleton.mp hm with rfl
                exact Or.inl rfl
              · rcases List.mem_singleton.mp hm with rfl
                exact Or.inr (Or.inl ⟨e₀.createdAt, env.now + pollInterval, rfl⟩)
            | some sliced =>
              simp only [hsl] at ha
              rcases List.mem_append.mp ha with hmem | hmem
              · rcases List.mem_append.mp hmem with hm | hm
                · rcases List.mem_singleton.mp hm with rfl
                  exact Or.inl rfl
                · rcases List.mem_singleton.mp hm with rfl
                  exact Or.inr (Or.inl ⟨e₀.createdAt, env.now + pollInterval, rfl⟩)
              · obtain ⟨ev, hev, rfl⟩ := poller_notifyLoop_trace env _ a hmem
                exact Or.inr (Or.inr ⟨ev, rfl⟩)
          · rw [if_neg hp] at ha
            rcases List.mem_append.mp ha with hm | hm
            · rcases List.mem_singleton.mp hm with rfl
              exact Or.inl rfl
            · rcases List.mem_singleton.mp hm with rfl
              exact Or.inr (Or.inl ⟨e₀.createdAt, env.now + pollInterval, rfl⟩)

/-- C3: in a part_000 poll cycle whose fetch succeeds with at least one
event, the new watermark (the first fetched event's `createdAt`, the
maximum given the remote's descending order) and the next-eligible-poll
time (`now` + returned poll interval) are persisted before any
notification: the trace starts with the fetch call and the persistence
call, and everything after them is a notification.  If the persistence
write fails, `PollUser` returns that error and the trace contains no
notification at all. -/
theorem c3_watermark_persisted_before_dispatch (env : Core.Env)
    (user : Core.User) (filters : List Core.Filter) (e₀ : Core.Event)
    (tl : List Core.Event) (pollInt : Int)
    (hfil : env.filters = .ok filters)
    (hfetch : env.listNewEvents (Core.watermarkOf user) = .ok (e₀ :: tl, pollInt)) :
    (env.setUsersPollResult user.id e₀.createdAt (env.now + pollInt) = true →
      ∃ rest, (Core.PollUser env user).2
          = Core.Action.listEvents user.githubLogin (Core.watermarkOf user)
            :: Core.Action.setPollResult user.id e₀.createdAt (env.now + pollInt)
            :: rest
        ∧ ∀ a ∈ rest, ∃ ev, a = Core.Action.notify ev)
    ∧ (env.setUsersPollResult user.id e₀.createdAt (env.now + pollInt) = false →
      (Core.PollUser env user).1 = .error ()
      ∧ ∀ a ∈ (Core.PollUser env user).2, ∀ ev : Core.Event,
          a ≠ Core.Action.notify ev) := by
  constructor
  · intro hp
    refine ⟨(Core.notifyLoop env
      (Core.FilterEventsDefault (e₀ :: tl) filters user.filterDefaultDiscard)).2, ?_, ?_⟩
    · unfold Core.PollUser
      simp only [hfil, hfetch, hp, if_true]
      rfl
    · intro a ha
      exact core_notifyLoop_trace env _ a ha
  · intro hp
    have hres : Core.PollUser env user
        = (.error (), [Core.Action.listEvents user.githubLogin (Core.watermarkOf user),
            Core.Action.setPollResult user.id e₀.createdAt (env.now + pollInt)]) := by
      unfold Core.PollUser
      simp only [hfil, hfetch, hp]
      rfl
    rw [hres]
    refine ⟨rfl, ?_⟩
    intro a ha ev
    rcases List.mem_cons.mp ha with rfl | ha'
    · intro hcon; cases hcon
    · rcases List.mem_singleton.mp ha' with rfl
      intro hcon; cases hcon

/-- Witness for C3: in the all-succeeding sample environment the trace is
exactly fetch, persist, then the notification of the surviving event. -/
theorem c3_watermark_persisted_before_dispatch_witness :
    sampleEnv.filters = .ok [sampleFilter]
    ∧ sampleEnv.listNewEvents (Core.watermarkOf sampleUser) = .ok ([sampleEvent], 60)
    ∧ sampleEnv.setUsersPollResult 1 100 1060 = true
    ∧ ∃ rest, (Core.PollUser sampleEnv sampleUser).2
        = Core.Action.listEvents "alice" (Core.watermarkOf sampleUser)
          :: Core.Action.setPollResult 1 100 1060 :: rest
      ∧ ∀ a ∈ rest, ∃ ev, a = Core.Action.notify ev := by
  have h := (c3_watermark_persisted_before_dispatch sampleEnv sampleUser
    [sampleFilter] sampleEvent [] 60 rfl rfl).1 rfl
  exact ⟨rfl, rfl, rfl, h⟩

/-- C6: in both poller variants, the fetch is never invoked with a zero
watermark: every fetch action in any `PollUser` trace carries a non-zero
watermark, which is the documented fixed epoch substitute (30 June 2017,
Australia/Adelaide) exactly when the account's stored watermark is the
zero value, and the stored watermark itself otherwise. -/
theorem c6_zero_watermark_substituted (env : Core.Env) (u : Core.User)
    (envP : Poller.Env) (uP : Poller.User) :
    (∀ l w, Core.Action.listEvents l w ∈ (Core.PollUser env u).2 →
      w ≠ 0 ∧ (u.eventLastCreatedAt = 0 → w = adelaideEpoch)
        ∧ (u.eventLastCreatedAt ≠ 0 → w = u.eventLastCreatedAt))
    ∧ (∀ l w, Poller.Action.listEvents l w ∈ (Poller.PollUser envP uP).trace →
      w ≠ 0 ∧ (uP.eventLastCreatedAt = 0 → w = adelaideEpoch)
        ∧ (uP.eventLastCreatedAt ≠ 0 → w = uP.eventLastCreatedAt)) := by
  constructor
  · intro l w hmem
    have hw : w = Core.watermarkOf u := by
      rcases core_pollUser_trace_shape env u _ hmem with h | h | h
      · cases h; rfl
      · obtain ⟨t₁, t₂, hcon⟩ := h; cases hcon
      · obtain ⟨ev, hcon⟩ := h; cases hcon
    subst hw
    unfold Core.watermarkOf
    by_cases h0 : u.eventLastCreatedAt = 0
    · rw [if_pos h0]
      refine ⟨by decide, fun _ => rfl, fun hne => absurd h0 hne⟩
    · rw [if_neg h0]
      exact ⟨h0, fun hc => absurd hc h0, fun _ => rfl⟩
  · intro l w hmem
    have hw : w = Poller.watermarkOf uP := by
      rcases poller_pollUser_trace_shape envP uP _ hmem with h | h | h
      · cases h; rfl
      · obtain ⟨t₁, t₂, hcon⟩ := h; cases hcon
      · obtain ⟨ev, hcon⟩ := h; cases hcon
    subst hw
    unfold Poller.watermarkOf
    by_cases h0 : uP.eventLastCreatedAt = 0
    · rw [if_pos h0]
      refine ⟨by decide, fun _ => rfl, fun hne => absurd h0 hne⟩
    · rw [if_neg h0]
      exact ⟨h0, fun hc => absurd hc h0, fun _ => rfl⟩

/-- Witness for C6: a never-polled user's fetch action carries exactly the
fixed epoch. -/
theorem c6_zero_watermark_substituted_witness :
    Core.Action.listEvents "bob" adelaideEpoch
        ∈ (Core.PollUser sampleEnv sampleUserFresh).2
    ∧ adelaideEpoch ≠ 0
    ∧ (sampleUserFresh.eventLastCreatedAt = 0 → adelaideEpoch = adelaideEpoch) := by
  have hmem : Core.Action.listEvents "bob" adelaideEpoch
      ∈ (Core.PollUser sampleEnv sampleUserFresh).2 := by decide
  have h := (c6_zero_watermark_substituted sampleEnv sampleUserFresh
    samplePollerEnv samplePollerUser).1 "bob" adelaideEpoch hmem
  exact ⟨hmem, h.1, h.2.1⟩

/-- C9: in the poller.go variant, whenever the fetch succeeds with fewer
than five events (including zero) in a non-skipped cycle, `PollUser`
panics on the slice expression `newEvents[:5]` instead of returning; when
it does not panic (five or more events), only the first five fetched
events are ever considered for notification. -/
theorem c9_poller_slice_panics (env : Poller.Env) (user : Poller.User)
    (fs : List (GHEvent → Bool)) (evs : List GHEvent) (pollInt : Int)
    (hskip : ¬ env.now < user.eventNextUpdate)
    (hfil : env.filters = .ok fs)
    (hfetch : env.listNewEvents (Poller.watermarkOf user) = .ok (evs, pollInt))
    (hpersist : ∀ uid t₁ t₂, env.setUsersPollResult uid t₁ t₂ = true) :
    (evs.length < 5 → (Poller.PollUser env user).outcome = .panicked)
    ∧ (5 ≤ evs.length → (Poller.PollUser env user).outcome ≠ .panicked
      ∧ ∀ ev, Poller.Action.notify ev ∈ (Poller.PollUser env user).trace →
          ev ∈ evs.take 5) := by
  cases evs with
  | nil =>
    have hrun : Poller.PollUser env user
        = ⟨.panicked, [Poller.Action.listEvents user.githubUser (Poller.watermarkOf user)]⟩ := by
      unfold Poller.PollUser
      rw [if_neg hskip, hfil, hfetch]
      rfl
    rw [hrun]
    exact ⟨fun _ => rfl, fun h5 => absurd h5 (by simp)⟩
  | cons e₀ tl =>
    have hpok := hpersist user.id e₀.createdAt (env.now + pollInt)
    by_cases hlen : (e₀ :: tl).length < 5
    · have hsl : Poller.sliceTo (e₀ :: tl) 5 = none := by
        unfold Poller.sliceTo
        rw [if_neg (by omega)]
      have hrun : Poller.PollUser env user
          = ⟨.panicked, [Poller.Action.listEvents user.githubUser (Poller.watermarkOf user),
              Poller.Action.setPollResult user.id e₀.createdAt (env.now + pollInt)]⟩ := by
        unfold Poller.PollUser
        rw [if_neg hskip, hfil, hfetch]
        simp only [hpok, hsl]
        rfl
      rw [hrun]
      exact ⟨fun _ => rfl, fun h5 => absurd h5 (by omega)⟩
    · have h5 : 5 ≤ (e₀ :: tl).length := by omega
      have hsl : Poller.sliceTo (e₀ :: tl) 5 = some ((e₀ :: tl).take 5) := by
        unfold Poller.sliceTo
        rw [if_pos h5]
      have hrun : Poller.PollUser env user
          = ⟨.returned (Poller.notifyLoop env (((e₀ :: tl).take 5).filter
                (fun e => fs.any (fun f => f e)))).1,
              Poller.Action.listEvents user.githubUser (Poller.watermarkOf user)
                :: Poller.Action.setPollResult user.id e₀.createdAt (env.now + pollInt)
                :: (Poller.notifyLoop env (((e₀ :: tl).take 5).filter
                    (fun e => fs.any (fun f => f e)))).2⟩ := by
        unfold Poller.PollUser
        rw [if_neg hskip, hfil, hfetch]
        simp only [hpok, hsl]
        rfl
      rw [hrun]
      refine ⟨fun hcon => absurd hcon (by omega), fun _ => ⟨?_, ?_⟩⟩
      · intro hcon
        cases hcon
      · intro ev hmem
        rcases List.mem_cons.mp hmem with hcon | hmem'
        · cases hcon
        · rcases List.mem_cons.mp hmem' with hcon | hmem''
          · cases hcon
          · obtain ⟨ev', hev', heq⟩ := poller_notifyLoop_trace env _ _ hmem''
            cases heq
            exact List.mem_of_mem_filter hev'

/-- Witness for C9: a fetch returning two events makes the poller.go
`PollUser` panic. -/
theorem c9_poller_slice_panics_witness :
    (¬ samplePollerEnv.now < samplePollerUser.eventNextUpdate)
    ∧ ([sampleGH₂, sampleGH] : List GHEvent).length < 5
    ∧ (Poller.PollUser samplePollerEnv samplePollerUser).outcome = .panicked := by
  refine ⟨by decide, by decide, ?_⟩
  exact (c9_poller_slice_panics samplePollerEnv samplePollerUser
    [fun _ => true] [sampleGH₂, sampleGH] 60 (by decide) rfl rfl
    (fun _ _ _ => rfl)).1 (by decide)

/-- C10: in both poller variants, a poll cycle whose fetch succeeds with
zero events performs no persistence call at all — neither the watermark
(`lastSeenAt`) nor the next-eligible-poll time is written, leaving the
stored poll state entirely unchanged, so the account is eligible again on
the very next tick regardless of the returned poll interval. -/
theorem c10_zero_events_leave_state_unchanged (env : Core.Env) (u : Core.User)
    (envP : Poller.Env) (uP : Poller.User) (fs : List Core.Filter)
    (fsP : List (GHEvent → Bool)) (pInt pIntP : Int)
    (h₁ : env.filters = .ok fs)
    (h₂ : env.listNewEvents (Core.watermarkOf u) = .ok ([], pInt))
    (h₃ : envP.filters = .ok fsP)
    (h₄ : envP.listNewEvents (Poller.watermarkOf uP) = .ok ([], pIntP)) :
    (∀ uid t₁ t₂, Core.Action.setPollResult uid t₁ t₂ ∉ (Core.PollUser env u).2)
    ∧ (∀ uid t₁ t₂,
        Poller.Action.setPollResult uid t₁ t₂ ∉ (Poller.PollUser envP uP).trace) := by
  constructor
  · intro uid t₁ t₂ hmem
    have hrun : (Core.PollUser env u).2
        = [Core.Action.listEvents u.githubLogin (Core.watermarkOf u)] := by
      unfold Core.PollUser
      simp only [h₁, h₂]
      rfl
    rw [hrun] at hmem
    have hcon := List.mem_singleton.mp hmem
    cases hcon
  · intro uid t₁ t₂ hmem
    by_cases hskip : envP.now < uP.eventNextUpdate
    · have hrun : (Poller.PollUser envP uP).trace = [] := by
        unfold Poller.PollUser
        rw [if_pos hskip]
      rw [hrun] at hmem
      cases hmem
    · have hrun : (Poller.PollUser envP uP).trace
          = [Poller.Action.listEvents uP.githubUser (Poller.watermarkOf uP)] := by
        unfold Poller.PollUser
        rw [if_neg hskip]
        simp only [h₃, h₄]
        rfl
      rw [hrun] at hmem
      have hcon := List.mem_singleton.mp hmem
      cases hcon

/-- Witness for C10: with empty fetches in both variants, no persistence
action occurs in either trace. -/
theorem c10_zero_events_leave_state_unchanged_witness :
    sampleEnvEmpty.listNewEvents (Core.watermarkOf sampleUser) = .ok ([], 60)
    ∧ samplePollerEnvEmpty.listNewEvents (Poller.watermarkOf samplePollerUser) = .ok ([], 60)
    ∧ Core.Action.setPollResult 1 100 1060 ∉ (Core.PollUser sampleEnvEmpty sampleUser).2
    ∧ Poller.Action.setPollResult 1 100 1060
        ∉ (Poller.PollUser samplePollerEnvEmpty samplePollerUser).trace := by
  have h := c10_zero_events_leave_state_unchanged sampleEnvEmpty sampleUser
    samplePollerEnvEmpty samplePollerUser [sampleFilter] [fun _ => true] 60 60
    rfl rfl rfl rfl
  exact ⟨rfl, rfl, h.1 1 100 1060, h.2 1 100 1060⟩

end Maintainer
